import Mathlib

/-!
# Verification of the blurry-image-placeholder engine

Shallow embedding of `packages/optimizer/lib/transformers/AddBlurryImagePlaceholders.js`
(the placeholder derivation engine) together with proofs checking the
specification's claims against it.

Modelling conventions:
* A parse5 tree node is `Node` (tag name, ordered attribute list, children).
  JavaScript attribute objects map to ordered association lists; an absent
  attribute is an absent key (`alookup` returns `none`).
* JavaScript strings are Lean `String`s; numbers used as counters and sizes
  are `Nat`; the floating-point arithmetic of `getBitmapDimensions_` is
  idealised over `ℝ` (exact real arithmetic in place of IEEE doubles).
* The asynchronous promise fan-out is modelled deterministically: the
  synchronous document walk performs all cache reads against the cache as it
  was when `transform` started (`cache0`), tasks are resolved by an oracle
  `codec : String → Option PlaceholderResult` (`none` = decode failure), and
  the cache writes performed by the settled tasks are accumulated in `sets`.
  This matches the source, where every `cache.get` runs synchronously during
  the walk and every `cache.set` runs when a promise resolves.
* External collaborators that are not part of this repository's source are
  modelled from the spec where required and documented as such
  (`url` pathname parsing, `skipNodeAndChildren`, `lru-cache` eviction).
-/

/-- `PIXEL_TARGET` from the source: fixed total-pixel budget of a placeholder. -/
def PIXEL_TARGET : Nat := 60

/-- `MAX_BLURRED_PLACEHOLDERS` from the source: default maximum placeholder count. -/
def MAX_BLURRED_PLACEHOLDERS : Nat := 100

/-- `DEFAULT_CACHED_PLACEHOLDERS` from the source: default cache capacity. -/
def DEFAULT_CACHED_PLACEHOLDERS : Nat := 30

/-- A computed placeholder artifact, the source's
`{src: dataURI, width, height}` record cached per image reference. -/
structure PlaceholderResult where
  src : String
  width : Nat
  height : Nat
deriving DecidableEq

mutual
/-- A document tree node: tag name, ordered attributes, children.
Mirrors the parse5 node surface used by the transformer. -/
inductive Node where
  | mk (tagName : String) (attribs : List (String × String)) (children : NodeList)

/-- Children of a node (a mutual list so that structural recursion and
induction over the tree are available). -/
inductive NodeList where
  | nil
  | cons (head : Node) (tail : NodeList)
end

/-- Tag name of a node. -/
def Node.tagName : Node → String
  | .mk t _ _ => t

/-- Attribute list of a node. -/
def Node.attribs : Node → List (String × String)
  | .mk _ a _ => a

/-- Children of a node. -/
def Node.children : Node → NodeList
  | .mk _ _ c => c

/-- Association-list lookup (first binding wins), modelling JavaScript
property access `obj[k]` returning `undefined` as `none`. -/
def alookup {α : Type} : List (String × α) → String → Option α
  | [], _ => none
  | (a, b) :: t, k => if a = k then some b else alookup t k

/-- `node.attribs.k` read access. -/
def Node.getAttr (n : Node) (k : String) : Option String :=
  alookup n.attribs k

/-- JavaScript property assignment `attribs[k] = v`: overwrite in place if
the key exists, otherwise append the new binding. -/
def setAttrList : List (String × String) → String → String → List (String × String)
  | [], k, v => [(k, v)]
  | (a, b) :: t, k, v => if a = k then (k, v) :: t else (a, b) :: setAttrList t k v

/-- `NodeList` append. -/
def NodeList.append : NodeList → NodeList → NodeList
  | .nil, ys => ys
  | .cons x xs, ys => .cons x (xs.append ys)

/-- Length of a `NodeList`. -/
def NodeList.length : NodeList → Nat
  | .nil => 0
  | .cons _ t => 1 + t.length

/-- `n` copies of one node. -/
def NodeList.replicate : Nat → Node → NodeList
  | 0, _ => .nil
  | k + 1, n => .cons n (NodeList.replicate k n)

/-- Drop the first `k` children. -/
def NodeList.drop : Nat → NodeList → NodeList
  | 0, l => l
  | _ + 1, .nil => .nil
  | k + 1, .cons _ t => NodeList.drop k t

/-- `hasPlaceholder_` from the source: does some child carry a
`placeholder` attribute (present with any value)? -/
def hasPlaceholder : NodeList → Bool
  | .nil => false
  | .cons c t => (c.getAttr "placeholder").isSome || hasPlaceholder t

/-- `ESCAPE_TABLE` / `escaper` from the source, as a per-character map:
`#`, `%`, `:`, `<`, `>` are percent-escaped and `"` becomes `'`. -/
def escapeChar (c : Char) : List Char :=
  if c = '#' then ['%', '2', '3']
  else if c = '%' then ['%', '2', '5']
  else if c = ':' then ['%', '3', 'A']
  else if c = '<' then ['%', '3', 'C']
  else if c = '>' then ['%', '3', 'E']
  else if c = '"' then ['\'']
  else [c]

/-- `svg.replace(ESCAPE_REGEX, escaper)`: the regex is a single-character
alternation applied globally, i.e. one left-to-right pass replacing each
table character and never re-scanning replacement text — exactly a
character-wise concat-map. -/
def escapeList : List Char → List Char
  | [] => []
  | c :: t => escapeChar c ++ escapeList t

/-- String form of the escaping pass. -/
def escapeSvg (s : String) : String :=
  ⟨escapeList s.data⟩

/-- Whitespace class of the source's `/\s+/` regex (the characters that can
actually occur in the generated markup: space, newline, tab, CR, FF, VT). -/
def isWs (c : Char) : Bool :=
  c = ' ' || c = '\n' || c = '\t' || c = '\r' || c = '\x0b' || c = '\x0c'

/-- `svg.replace(/\s+/g, ' ')`: every maximal whitespace run collapses to a
single space. -/
def collapseWsList : List Char → List Char
  | [] => []
  | [c] => [if isWs c then ' ' else c]
  | c :: d :: t =>
    if isWs c && isWs d then collapseWsList (d :: t)
    else (if isWs c then ' ' else c) :: collapseWsList (d :: t)

/-- `svg.replace(/> </g, '><')`: one global left-to-right pass deleting the
space of every `> <` occurrence (the scan resumes after each match and
replacement text is not re-scanned). -/
def tightenTagGap : List Char → List Char
  | '>' :: ' ' :: '<' :: t => '>' :: '<' :: tightenTagGap t
  | c :: t => c :: tightenTagGap t
  | [] => []

/-- The source's SVG template literal (lines 146–159), with `${dataURI.width}`,
`${dataURI.height}` and `${dataURI.src}` spliced in. -/
def svgTemplate (w h : Nat) (src : String) : String :=
  "<svg xmlns=\"http://www.w3.org/2000/svg\"\n" ++
  "                      xmlns:xlink=\"http://www.w3.org/1999/xlink\"\n" ++
  "                      viewBox=\"0 0 " ++ toString w ++ " " ++ toString h ++ "\">\n" ++
  "                      <filter id=\"b\" color-interpolation-filters=\"sRGB\">\n" ++
  "                        <feGaussianBlur stdDeviation=\".5\"></feGaussianBlur>\n" ++
  "                        <feComponentTransfer>\n" ++
  "                          <feFuncA type=\"discrete\" tableValues=\"1 1\"></feFuncA>\n" ++
  "                        </feComponentTransfer>\n" ++
  "                      </filter>\n" ++
  "                      <image filter=\"url(#b)\" x=\"0\" y=\"0\"\n" ++
  "                        height=\"100%\" width=\"100%\"\n" ++
  "                        xlink:href=\"" ++ src ++ "\">\n" ++
  "                      </image>\n" ++
  "                    </svg>"

/-- The markup after both whitespace passes (what the source holds in `svg`
just before the escaping pass). -/
def preEscapeSvg (w h : Nat) (src : String) : String :=
  ⟨tightenTagGap (collapseWsList (svgTemplate w h src).data)⟩

/-- The escaped fragment of the final data URI. -/
def escapedSvg (w h : Nat) (src : String) : String :=
  escapeSvg (preEscapeSvg w h src)

/-- The final `img.attribs.src` value:
`'data:image/svg+xml;charset=utf-8,' + svg`. -/
def placeholderDataURI (r : PlaceholderResult) : String :=
  "data:image/svg+xml;charset=utf-8," ++ escapedSvg r.width r.height r.src

/-- The placeholder `<img>` element built by `addBlurryPlaceholder_`
(`class`, `placeholder`, `src` — overwritten with the data URI — and `alt`,
in JavaScript property-insertion order). -/
def mkPlaceholderImg (r : PlaceholderResult) : Node :=
  Node.mk "img"
    [("class", "i-amphtml-blurry-placeholder"),
     ("placeholder", ""),
     ("src", placeholderDataURI r),
     ("alt", "")]
    .nil

/-- The engine's cache, as selected by the constructor: either the `Map`
backend or the `lru-cache` backend with its capacity. -/
inductive PlaceholderCache where
  | map (entries : List (String × PlaceholderResult))
  | lru (max : Nat) (entries : List (String × PlaceholderResult))
deriving DecidableEq

/-- The constructor of `AddBlurryImagePlaceholders`:
`maxCacheSize = config.blurredPlaceholdersCacheSize || DEFAULT_CACHED_PLACEHOLDERS`
(JavaScript `||`: `0` is falsy, so a configured `0` falls back to the
default), then a `Map` if `maxCacheSize === 0`, else an LRU cache. -/
def mkCache (blurredPlaceholdersCacheSize : Nat) : PlaceholderCache :=
  let maxCacheSize :=
    if blurredPlaceholdersCacheSize = 0 then DEFAULT_CACHED_PLACEHOLDERS
    else blurredPlaceholdersCacheSize
  if maxCacheSize = 0 then .map [] else .lru maxCacheSize []

/-- Remove a key from an association list. -/
def eraseKey {α : Type} : List (String × α) → String → List (String × α)
  | [], _ => []
  | (a, b) :: t, k => if a = k then eraseKey t k else (a, b) :: eraseKey t k

/-- Modelled from the spec: `lru-cache` is an external library; per §4.3 a
`set` inserts (or refreshes) the key at the most-recent position and, when
the entry count would exceed the capacity, evicts the least-recently-used
entry. The entry list is kept most-recent-first. -/
def lruSet (cap : Nat) (l : List (String × PlaceholderResult)) (k : String)
    (v : PlaceholderResult) : List (String × PlaceholderResult) :=
  ((k, v) :: eraseKey l k).take cap

/-- `this.cache.set(key, value)` on either backend (`Map.set` is an
unconditional unbounded overwrite; the LRU backend may evict). -/
def cacheSet (c : PlaceholderCache) (k : String) (v : PlaceholderResult) :
    PlaceholderCache :=
  match c with
  | .map l => .map ((k, v) :: eraseKey l k)
  | .lru cap l => .lru cap (lruSet cap l k v)

/-- `this.cache.get(key)` viewed as a pure lookup (the LRU backend also
refreshes recency on `get`; no claim depends on that refresh). -/
def cacheGet (c : PlaceholderCache) (k : String) : Option PlaceholderResult :=
  match c with
  | .map l => alookup l k
  | .lru _ l => alookup l k

/-- Insert `n` distinct keys `"k0" … "k(n-1)"`, each with result `r`. -/
def insertKeys (r : PlaceholderResult) : Nat → PlaceholderCache → PlaceholderCache
  | 0, c => c
  | k + 1, c => cacheSet (insertKeys r k c) ("k" ++ toString k) r

/-- Is `pat` a prefix of `l`? (character-list version of JavaScript
`String.startsWith`, used to build the suffix check). -/
def listIsPre : List Char → List Char → Bool
  | [], _ => true
  | _ :: _, [] => false
  | a :: as, b :: bs => a = b && listIsPre as bs

/-- JavaScript `s.endsWith(suf)`. -/
def strEndsWith (s suf : String) : Bool :=
  listIsPre suf.data.reverse s.data.reverse

/-- Modelled from the spec: `new URL(src, 'https://example.com').pathname`
comes from Node's external `url` module (not part of this repository's
source). Per the spec, the reference's path component is obtained by parsing
against a neutral base; modelled as the reference truncated at its first
`?` or `#` (query and fragment removed). -/
def urlPathname (s : String) : String :=
  ⟨s.data.takeWhile (fun c => !(c = '?' || c = '#'))⟩

/-- `shouldAddBlurryPlaceholder_` from the source: the eligibility
classifier, with each short-circuit rejection in source order. -/
def shouldAddBlurryPlaceholder (node : Node) (src : Option String)
    (tagName : String) : Bool :=
  match src with
  | none => false
  | some s =>
    if s = "" then false
    else if hasPlaceholder node.children then false
    else if !(strEndsWith (urlPathname s) ".jpg" || strEndsWith (urlPathname s) "jpeg")
      then false
    else if (node.getAttr "noloading").isSome then false
    else
      let isPoster := tagName == "amp-video"
      let layout := node.getAttr "layout"
      let isResponsiveImgWithLoading := tagName == "amp-img" &&
        (layout == some "intrinsic" || layout == some "responsive" ||
          layout == some "fill")
      isPoster || isResponsiveImgWithLoading

/-- The candidate-extraction step of `transform`'s loop body: for `amp-img`
the `src` attribute; for `amp-video` the `poster` attribute, but only when
that attribute is truthy (present and non-empty); otherwise no reference. -/
def extractSrc (tagName : String) (attrs : List (String × String)) :
    Option String :=
  if tagName = "amp-img" then alookup attrs "src"
  else if tagName = "amp-video" then
    match alookup attrs "poster" with
    | some p => if p = "" then none else some p
    | none => none
  else none

/-- `params.maxBlurredPlaceholders || MAX_BLURRED_PLACEHOLDERS`
(JavaScript `||`: a configured `0` is falsy and falls back to the default). -/
def effMaxPlaceholders (maxBlurredPlaceholders : Nat) : Nat :=
  if maxBlurredPlaceholders = 0 then MAX_BLURRED_PLACEHOLDERS
  else maxBlurredPlaceholders

/-- Engine configuration for one `transform` run: the effective maximum
placeholder count, the cache contents at the start of the run (all
synchronous `cache.get`s during the walk read this snapshot), and the task
oracle `codec` giving the settlement of a cache-missing derivation
(`none` = decode failure of `jimp.read`'s promise chain). -/
structure EngineCfg where
  maxP : Nat
  cache0 : List (String × PlaceholderResult)
  codec : String → Option PlaceholderResult

/-- One derivation task body (`getDataURI_`): cache hit returns the stored
result and writes nothing; cache miss asks the codec and on success stores
the result under the raw reference; a decode failure is caught
(`.catch` in `addBlurryPlaceholder_`), producing no result and no write. -/
def runTask (cfg : EngineCfg) (s : String) :
    Option PlaceholderResult × List (String × PlaceholderResult) :=
  match alookup cfg.cache0 s with
  | some r => (some r, [])
  | none =>
    match cfg.codec s with
    | some r => (some r, [(s, r)])
    | none => (none, [])

/-- Walk state threaded through the document walk: `count` is the source's
`placeholders` counter (incremented per task initiated), `attached` counts
tasks that settled successfully and appended a placeholder, `sets` are the
accumulated `cache.set` writes of settled tasks, and `stopped` records that
the walk executed its `break` after `count` reached the maximum. -/
structure Step where
  count : Nat
  attached : Nat
  sets : List (String × PlaceholderResult)
  stopped : Bool
deriving DecidableEq

/-- The attachment performed when an initiated task's promise resolves:
`node.attribs.noloading = ''` on the host, then append the placeholder
child at the end of the host's children. -/
def attachPlaceholder (tag : String) (attrs : List (String × String))
    (cs : NodeList) (img : Node) : Node :=
  Node.mk tag (setAttrList attrs "noloading" "") (cs.append (.cons img .nil))

mutual
/-- The walk of `transform` (lines 95–122) restricted to one visited node:
a `template` node is skipped with its whole subtree
(modelled from the spec for `skipNodeAndChildren`, which lives outside this
source file: the traversal resumes after the subtree); otherwise the
candidate is extracted and classified; on eligibility the counter is
incremented, the derivation task runs, and — unless the counter reached the
maximum, which `break`s the walk before visiting any further node — the
children are walked next; when the task settled successfully the
placeholder is attached, and on decode failure the `.then` handler still
sets `noloading` but appends nothing (`img` is `undefined`; the tree
helper's append of an absent child is modelled from the spec as a no-op). -/
def trNode (cfg : EngineCfg) (n : Node) (st : Step) : Node × Step :=
  match n with
  | Node.mk tag attrs cs =>
    if tag = "template" then (Node.mk tag attrs cs, st)
    else
      match extractSrc tag attrs with
      | some s =>
        if shouldAddBlurryPlaceholder (Node.mk tag attrs cs) (some s) tag then
          let count1 := st.count + 1
          let task := runTask cfg s
          let stopped1 : Bool := decide (cfg.maxP ≤ count1)
          let st1 : Step :=
            { count := count1, attached := st.attached,
              sets := st.sets ++ task.2, stopped := stopped1 }
          let inner : NodeList × Step :=
            if stopped1 then (cs, st1) else trList cfg cs st1
          match task.1 with
          | some r =>
            (attachPlaceholder tag attrs inner.1 (mkPlaceholderImg r),
             { inner.2 with attached := inner.2.attached + 1 })
          | none =>
            (Node.mk tag (setAttrList attrs "noloading" "") inner.1, inner.2)
        else
          let inner := trList cfg cs st
          (Node.mk tag attrs inner.1, inner.2)
      | none =>
        let inner := trList cfg cs st
        (Node.mk tag attrs inner.1, inner.2)

/-- The walk over a sibling list: once `stopped` is set by a node's subtree,
the `break` has fired and the remaining siblings are never visited. -/
def trList (cfg : EngineCfg) (ns : NodeList) (st : Step) : NodeList × Step :=
  match ns with
  | .nil => (.nil, st)
  | .cons n rest =>
    let r1 := trNode cfg n st
    if r1.2.stopped then (.cons r1.1 rest, r1.2)
    else
      let r2 := trList cfg rest r1.2
      (.cons r1.1 r2.1, r2.2)
end

/-- The initial walk state of one `transform` run. -/
def initialStep : Step :=
  { count := 0, attached := 0, sets := [], stopped := false }

/-- `transform`, from the `blurredPlaceholders` guard onwards, applied to
the `body` subtree the walk covers: when generation is disabled nothing
happens; otherwise the walk runs with the effective maximum. -/
def transform (blurredPlaceholders : Bool) (maxBlurredPlaceholders : Nat)
    (cache0 : List (String × PlaceholderResult))
    (codec : String → Option PlaceholderResult) (body : Node) : Node × Step :=
  if !blurredPlaceholders then (body, initialStep)
  else
    trNode
      { maxP := effMaxPlaceholders maxBlurredPlaceholders,
        cache0 := cache0, codec := codec }
      body initialStep

mutual
/-- Number of eligible candidates a full walk of `n` (no maximum cutoff)
would initiate: zero inside `template` subtrees, one for the node itself
when the classifier accepts it, plus its children's candidates, in
pre-order. -/
def eligNode : Node → Nat
  | Node.mk tag attrs cs =>
    if tag = "template" then 0
    else
      (match extractSrc tag attrs with
       | some s =>
         if shouldAddBlurryPlaceholder (Node.mk tag attrs cs) (some s) tag
         then 1 else 0
       | none => 0) + eligList cs

/-- Eligible-candidate count of a sibling list. -/
def eligList : NodeList → Nat
  | .nil => 0
  | .cons n t => eligNode n + eligList t
end

/-- Indexed access into a `NodeList`. -/
def NodeList.get? : NodeList → Nat → Option Node
  | .nil, _ => none
  | .cons n _, 0 => some n
  | .cons _ t, k + 1 => t.get? k

/-- No two consecutive whitespace characters anywhere in the list. -/
def noDoubleWs : List Char → Bool
  | a :: b :: t => !(isWs a && isWs b) && noDoubleWs (b :: t)
  | _ => true

/-- Does `l` contain `pat` as a contiguous sublist? -/
def containsSub (pat : List Char) : List Char → Bool
  | [] => listIsPre pat []
  | c :: t => listIsPre pat (c :: t) || containsSub pat t

/-- `getBitmapDimensions_` from the source, idealised over exact real
arithmetic: `ratioWH = w / h`, `bitmapHeight = sqrt(PIXEL_TARGET / ratioWH)`,
`bitmapWidth = PIXEL_TARGET / bitmapHeight`, both rounded to the nearest
integer (`Math.round` and `round` agree on nonnegative values). -/
noncomputable def getBitmapDimensions (imgWidth imgHeight : Nat) : ℤ × ℤ :=
  let ratioWH : ℝ := (imgWidth : ℝ) / (imgHeight : ℝ)
  let bitmapHeight : ℝ := Real.sqrt ((PIXEL_TARGET : ℝ) / ratioWH)
  let bitmapWidth : ℝ := (PIXEL_TARGET : ℝ) / bitmapHeight
  (round bitmapWidth, round bitmapHeight)

/-- A stand-in decoded bitmap result used in concrete runs. -/
def demoResult : PlaceholderResult :=
  { src := "b", width := 2, height := 2 }

/-- An eligible candidate: `amp-img` with a `.jpg` source and
`layout=responsive`. -/
def demoCandidate : Node :=
  Node.mk "amp-img" [("src", "a.jpg"), ("layout", "responsive")] .nil

/-- A second eligible candidate whose source will be made to fail decoding. -/
def demoFailCandidate : Node :=
  Node.mk "amp-img" [("src", "bad.jpg"), ("layout", "responsive")] .nil

/-- A third eligible candidate with a distinct source that decodes fine. -/
def demoOkCandidate : Node :=
  Node.mk "amp-img" [("src", "good.jpg"), ("layout", "responsive")] .nil

/-- A `body` with `k` eligible candidates. -/
def demoBody (k : Nat) : Node :=
  Node.mk "body" [] (NodeList.replicate k demoCandidate)

/-- A codec oracle that decodes every reference successfully. -/
def demoCodec : String → Option PlaceholderResult :=
  fun _ => some demoResult

/-- A codec oracle that fails on `bad.jpg` and succeeds elsewhere. -/
def demoCodecFailBad : String → Option PlaceholderResult :=
  fun s => if s = "bad.jpg" then none else some demoResult

/-- A `body` whose first candidate's decode fails and whose second
candidate's decode succeeds. -/
def demoBodyFailOk : Node :=
  Node.mk "body" [] (.cons demoFailCandidate (.cons demoOkCandidate .nil))

/-- A `body` holding a `template` that wraps three otherwise-eligible
candidates, followed by one eligible candidate outside the template. -/
def demoBodyTemplate : Node :=
  Node.mk "body" []
    (.cons (Node.mk "template" [] (NodeList.replicate 3 demoCandidate))
      (.cons demoCandidate .nil))

/-- `c` is none of the five characters the escaping pass must eliminate
from the embedded markup (`#`, `:`, `<`, `>`, `"`). -/
def svgCharOk (c : Char) : Bool :=
  !(c = '#' || c = ':' || c = '<' || c = '>' || c = '"')

set_option maxRecDepth 40000

theorem escapeChar_safe (c : Char) : (escapeChar c).all svgCharOk = true := by
  unfold escapeChar
  split_ifs with h1 h2 h3 h4 h5 h6
  · decide
  · decide
  · decide
  · decide
  · decide
  · decide
  · simp [svgCharOk, h1, h3, h4, h5, h6]

theorem escapeList_safe (l : List Char) : (escapeList l).all svgCharOk = true := by
  induction l with
  | nil => rfl
  | cons c t ih => simp [escapeList, List.all_append, escapeChar_safe, ih]

theorem escapeList_join (l : List Char) :
    escapeList l = (l.map escapeChar).flatten := by
  induction l with
  | nil => rfl
  | cons c t ih => simp [escapeList, ih]

theorem escapeSvg_data (s : String) : (escapeSvg s).data = escapeList s.data := rfl

/-- C6: for every bitmap encoding and dimensions, the escaped fragment of
the produced data URI contains no literal `#`, `:`, `<`, `>` or `"`; the
escaping pass is a single left-to-right character-wise application of the
fixed table (`#`→`%23`, `%`→`%25`, `:`→`%3A`, `<`→`%3C`, `>`→`%3E`,
`"`→`'`) with no re-scanning of replacement text. -/
theorem escapedSvg_escaping_safe :
    (∀ (w h : Nat) (bmp : String),
      ((escapedSvg w h bmp).data.all svgCharOk) = true) ∧
    (∀ s : String, (escapeSvg s).data = (s.data.map escapeChar).flatten) ∧
    (escapeChar '#' = ['%', '2', '3'] ∧ escapeChar '%' = ['%', '2', '5'] ∧
     escapeChar ':' = ['%', '3', 'A'] ∧ escapeChar '<' = ['%', '3', 'C'] ∧
     escapeChar '>' = ['%', '3', 'E'] ∧ escapeChar '"' = ['\'']) := by
  refine ⟨fun w h bmp => ?_, fun s => ?_, rfl, rfl, rfl, rfl, rfl, rfl⟩
  · unfold escapedSvg
    rw [escapeSvg_data]
    exact escapeList_safe _
  · rw [escapeSvg_data]
    exact escapeList_join _

theorem collapseWs_head_of_not_ws {d : Char} (t : List Char)
    (hd : isWs d = false) :
    ∃ t', collapseWsList (d :: t) = d :: t' := by
  cases t with
  | nil => exact ⟨[], by simp [collapseWsList, hd]⟩
  | cons e t' => exact ⟨collapseWsList (e :: t'), by simp [collapseWsList, hd]⟩

theorem noDoubleWs_cons (x : Char) (l : List Char) (h : noDoubleWs l = true)
    (hx : ∀ b t, l = b :: t → (isWs x && isWs b) = false) :
    noDoubleWs (x :: l) = true := by
  cases l with
  | nil => rfl
  | cons b t => simp [noDoubleWs, h, hx b t rfl]

theorem collapseWs_noDoubleWs (l : List Char) :
    noDoubleWs (collapseWsList l) = true := by
  induction l with
  | nil => rfl
  | cons c t ih =>
    cases t with
    | nil => simp [collapseWsList, noDoubleWs]
    | cons d t' =>
      by_cases hcd : (isWs c && isWs d) = true
      · rw [collapseWsList, if_pos hcd]
        exact ih
      · rw [collapseWsList, if_neg hcd]
        by_cases hc : isWs c = true
        · have hd : isWs d = false := by
            cases hisd : isWs d
            · rfl
            · exact absurd (by simp [hc, hisd]) hcd
          obtain ⟨t'', ht⟩ := collapseWs_head_of_not_ws t' hd
          rw [if_pos hc, ht]
          have ih' : noDoubleWs (d :: t'') = true := ht ▸ ih
          exact noDoubleWs_cons _ _ ih' (by rintro b tt ⟨rfl, rfl⟩; simp [hd])
        · have hc' : isWs c = false := by simpa using hc
          rw [if_neg hc]
          exact noDoubleWs_cons _ _ ih (fun b tt _ => by simp [hc'])

/-- C7 (amended): in the markup produced before escaping, whitespace runs
are collapsed to a single space (never two consecutive whitespace
characters survive), and then the single space left between a tag-closing
`>` and a tag-opening `<` is deleted entirely, so adjacent tags end up
with no whitespace between them at all. -/
theorem whitespaceCollapse_amended :
    (∀ l : List Char, noDoubleWs (collapseWsList l) = true) ∧
    noDoubleWs (preEscapeSvg 1 1 "x").data = true ∧
    containsSub "</feGaussianBlur><feComponentTransfer>".data
      (preEscapeSvg 1 1 "x").data = true ∧
    containsSub "> <".data (preEscapeSvg 1 1 "x").data = false := by
  refine ⟨collapseWs_noDoubleWs, by decide, by decide, by decide⟩

/-- C7 (counterexample): between the adjacent tags `</feGaussianBlur>` and
`<feComponentTransfer>` the produced markup keeps no space at all — the
collapsed single space is removed by the `> <` → `><` pass — refuting
"collapsed to exactly one single space character". -/
theorem adjacentTags_gap_deleted :
    containsSub "</feGaussianBlur> <feComponentTransfer>".data
      (preEscapeSvg 1 1 "x").data = false ∧
    containsSub "</feGaussianBlur><feComponentTransfer>".data
      (preEscapeSvg 1 1 "x").data = true := by
  exact ⟨by decide, by decide⟩

/-- C1 (code bug): an engine constructed with cache capacity 0 does not get
the unbounded `Map` backend: `config.blurredPlaceholdersCacheSize ||
DEFAULT_CACHED_PLACEHOLDERS` coerces the falsy `0` to the default `30`, so
the `=== 0` branch is unreachable and every construction yields the bounded
LRU backend; inserting 31 distinct keys then evicts the first. -/
theorem cacheCapacityZero_buildsBoundedLRU :
    mkCache 0 = PlaceholderCache.lru 30 [] ∧
    cacheGet (insertKeys demoResult 31 (mkCache 0)) "k0" = none ∧
    cacheGet (insertKeys demoResult 31 (mkCache 0)) "k30" = some demoResult ∧
    (∀ n : Nat,
      mkCache n =
        PlaceholderCache.lru (if n = 0 then DEFAULT_CACHED_PLACEHOLDERS else n) []) := by
  refine ⟨rfl, by decide, by decide, fun n => ?_⟩
  by_cases hn : n = 0
  · simp [mkCache, hn, DEFAULT_CACHED_PLACEHOLDERS]
  · simp [mkCache, hn]

/-- C9: a configured `maxBlurredPlaceholders` of 0 is falsy, so
`params.maxBlurredPlaceholders || MAX_BLURRED_PLACEHOLDERS` substitutes the
default 100; a run with the field set to 0 behaves exactly as with 100, and
on a document with 150 eligible candidates it still initiates 100 tasks
rather than none. -/
theorem maxPlaceholdersZero_usesDefault :
    effMaxPlaceholders 0 = 100 ∧
    (∀ (cache0 : List (String × PlaceholderResult))
       (codec : String → Option PlaceholderResult) (body : Node),
      transform true 0 cache0 codec body = transform true 100 cache0 codec body) ∧
    (transform true 0 [] demoCodec (demoBody 150)).2.count = 100 := by
  refine ⟨rfl, fun cache0 codec body => rfl, by rfl⟩

theorem trList_length (cfg : EngineCfg) (ns : NodeList) (st : Step) :
    (trList cfg ns st).1.length = ns.length := by
  match ns with
  | .nil => simp [trList]
  | .cons n rest =>
    simp only [trList, NodeList.length]
    split
    · simp [NodeList.length]
    · simp [NodeList.length, trList_length cfg rest]

theorem alookup_append {α : Type} (l1 l2 : List (String × α)) (k : String) :
    alookup (l1 ++ l2) k =
      (match alookup l1 k with
       | some v => some v
       | none => alookup l2 k) := by
  induction l1 with
  | nil => simp [alookup]
  | cons p t ih =>
    obtain ⟨a, b⟩ := p
    by_cases h : a = k
    · simp [alookup, h]
    · simp [alookup, h, ih]

mutual
theorem trNode_noElig (cfg : EngineCfg) (n : Node) (st : Step)
    (h : eligNode n = 0) : trNode cfg n st = (n, st) := by
  match n with
  | Node.mk tag attrs cs =>
    by_cases ht : tag = "template"
    · simp [trNode, ht]
    · rw [eligNode, if_neg ht] at h
      rw [trNode, if_neg ht]
      cases hsrc : extractSrc tag attrs with
      | none =>
        simp only [hsrc] at h ⊢
        have h' : eligList cs = 0 := by omega
        simp [trList_noElig cfg cs st h']
      | some s =>
        simp only [hsrc] at h ⊢
        by_cases hel :
          shouldAddBlurryPlaceholder (Node.mk tag attrs cs) (some s) tag = true
        · rw [if_pos hel] at h
          omega
        · rw [if_neg hel] at h
          simp only [Nat.zero_add] at h
          simp [hel, trList_noElig cfg cs st h]

theorem trList_noElig (cfg : EngineCfg) (ns : NodeList) (st : Step)
    (h : eligList ns = 0) : trList cfg ns st = (ns, st) := by
  match ns with
  | .nil => rfl
  | .cons n rest =>
    rw [eligList] at h
    have hn : eligNode n = 0 := by omega
    have hr : eligList rest = 0 := by omega
    rw [trList, trNode_noElig cfg n st hn]
    split
    · rfl
    · rw [trList_noElig cfg rest st hr]
end

/-- C8: a `template` node is skipped together with its entire subtree —
the walk leaves it untouched, no node inside it is evaluated as a
candidate, it contributes zero initiated tasks and zero placeholders —
and on a concrete document a `template` wrapping three otherwise-eligible
candidates contributes nothing while an eligible sibling outside it is
still processed. -/
theorem templateSubtree_skipped :
    (∀ (cfg : EngineCfg) (attrs : List (String × String)) (cs : NodeList)
       (st : Step),
      trNode cfg (Node.mk "template" attrs cs) st =
        (Node.mk "template" attrs cs, st)) ∧
    (∀ (attrs : List (String × String)) (cs : NodeList),
      eligNode (Node.mk "template" attrs cs) = 0) ∧
    transform true 0 [] demoCodec demoBodyTemplate =
      (Node.mk "body" []
        (.cons (Node.mk "template" [] (NodeList.replicate 3 demoCandidate))
          (.cons
            (attachPlaceholder "amp-img"
              [("src", "a.jpg"), ("layout", "responsive")] .nil
              (mkPlaceholderImg demoResult)) .nil)),
       { count := 1, attached := 1, sets := [("a.jpg", demoResult)],
         stopped := false }) := by
  refine ⟨fun cfg attrs cs st => by simp [trNode], fun attrs cs => by simp [eligNode], ?_⟩
  rfl


mutual
theorem trList_count (cfg : EngineCfg) (ns : NodeList) (st : Step)
    (h1 : st.stopped = false) (h2 : st.count < cfg.maxP) :
    (trList cfg ns st).2.count = min cfg.maxP (st.count + eligList ns) ∧
    ((trList cfg ns st).2.stopped = true ↔ cfg.maxP ≤ st.count + eligList ns) := by
  match ns with
  | .nil =>
    rw [trList, eligList]
    refine ⟨?_, ?_⟩
    · show st.count = min cfg.maxP (st.count + 0)
      omega
    · show (st.stopped = true) ↔ cfg.maxP ≤ st.count + 0
      rw [h1]
      simp only [Bool.false_eq_true, false_iff]
      omega
  | .cons n rest =>
    rw [eligList]
    obtain ⟨hnc, hns⟩ := trNode_count cfg n st h1 h2
    by_cases hstop : (trNode cfg n st).2.stopped = true
    · simp only [trList, hstop, eq_self_iff_true, if_true]
      have hge : cfg.maxP ≤ st.count + eligNode n := hns.mp hstop
      refine ⟨?_, ?_⟩
      · show (trNode cfg n st).2.count = _
        omega
      · simp only [true_iff]
        omega
    · have hsf : (trNode cfg n st).2.stopped = false := by
        revert hstop
        cases (trNode cfg n st).2.stopped <;> simp
      have hn2 : ¬ cfg.maxP ≤ st.count + eligNode n := fun hcon => hstop (hns.mpr hcon)
      have hlt : (trNode cfg n st).2.count < cfg.maxP := by
        rw [hnc]
        omega
      obtain ⟨hrc, hrs⟩ := trList_count cfg rest (trNode cfg n st).2 hsf hlt
      simp only [trList, hsf, Bool.false_eq_true, if_false]
      refine ⟨?_, ?_⟩
      · show (trList cfg rest (trNode cfg n st).2).2.count = _
        rw [hrc, hnc]
        omega
      · show ((trList cfg rest (trNode cfg n st).2).2.stopped = true) ↔ _
        rw [hrs, hnc]
        omega

theorem trNode_count (cfg : EngineCfg) (n : Node) (st : Step)
    (h1 : st.stopped = false) (h2 : st.count < cfg.maxP) :
    (trNode cfg n st).2.count = min cfg.maxP (st.count + eligNode n) ∧
    ((trNode cfg n st).2.stopped = true ↔ cfg.maxP ≤ st.count + eligNode n) := by
  match n with
  | Node.mk tag attrs cs =>
    by_cases ht : tag = "template"
    · rw [trNode, if_pos ht, eligNode, if_pos ht]
      refine ⟨?_, ?_⟩
      · show st.count = min cfg.maxP (st.count + 0)
        omega
      · show (st.stopped = true) ↔ cfg.maxP ≤ st.count + 0
        rw [h1]
        simp only [Bool.false_eq_true, false_iff]
        omega
    · rw [trNode, if_neg ht, eligNode, if_neg ht]
      cases hsrc : extractSrc tag attrs with
      | none =>
        simp only [hsrc]
        obtain ⟨hc, hs⟩ := trList_count cfg cs st h1 h2
        refine ⟨?_, ?_⟩
        · show (trList cfg cs st).2.count = _
          omega
        · show ((trList cfg cs st).2.stopped = true) ↔ _
          rw [hs]
          omega
      | some s =>
        simp only [hsrc]
        by_cases hel :
          shouldAddBlurryPlaceholder (Node.mk tag attrs cs) (some s) tag = true
        · simp only [hel, if_true]
          by_cases hstop : cfg.maxP ≤ st.count + 1
          · have hd : decide (cfg.maxP ≤ st.count + 1) = true := decide_eq_true hstop
            simp only [hd, if_true]
            cases htask : (runTask cfg s).1 with
            | none =>
              simp only [htask]
              refine ⟨?_, ?_⟩
              · show st.count + 1 = _
                omega
              · simp only [true_iff]
                omega
            | some r =>
              simp only [htask]
              refine ⟨?_, ?_⟩
              · show st.count + 1 = _
                omega
              · simp only [true_iff]
                omega
          · have hd : decide (cfg.maxP ≤ st.count + 1) = false :=
              decide_eq_false hstop
            simp only [hd, Bool.false_eq_true, if_false]
            obtain ⟨hc, hs⟩ := trList_count cfg cs
              { count := st.count + 1, attached := st.attached,
                sets := st.sets ++ (runTask cfg s).2, stopped := false }
              rfl (by simp only; omega)
            simp only at hc hs
            cases htask : (runTask cfg s).1 with
            | none =>
              simp only [htask]
              refine ⟨?_, ?_⟩
              · show (trList cfg cs _).2.count = _
                rw [hc]
                omega
              · show ((trList cfg cs _).2.stopped = true) ↔ _
                rw [hs]
                omega
            | some r =>
              simp only [htask]
              refine ⟨?_, ?_⟩
              · show (trList cfg cs _).2.count = _
                rw [hc]
                omega
              · show ((trList cfg cs _).2.stopped = true) ↔ _
                rw [hs]
                omega
        · simp only [hel, Bool.false_eq_true, if_false]
          obtain ⟨hc, hs⟩ := trList_count cfg cs st h1 h2
          refine ⟨?_, ?_⟩
          · show (trList cfg cs st).2.count = _
            omega
          · show ((trList cfg cs st).2.stopped = true) ↔ _
            rw [hs]
            omega

end

theorem runTask_no_s (cfg : EngineCfg) (s : String)
    (ha : alookup cfg.cache0 s = none) (hb : cfg.codec s = none)
    (s' : String) : alookup (runTask cfg s').2 s = none := by
  by_cases he : s' = s
  · subst he
    simp [runTask, ha, hb, alookup]
  · unfold runTask
    cases h1 : alookup cfg.cache0 s' with
    | some r => simp [alookup]
    | none =>
      cases h2 : cfg.codec s' with
      | some r => simp [alookup, he]
      | none => simp [alookup]

mutual
theorem trNode_sets (cfg : EngineCfg) (s : String)
    (ha : alookup cfg.cache0 s = none) (hb : cfg.codec s = none)
    (n : Node) (st : Step) :
    alookup (trNode cfg n st).2.sets s = alookup st.sets s := by
  match n with
  | Node.mk tag attrs cs =>
    by_cases ht : tag = "template"
    · rw [trNode, if_pos ht]
    · rw [trNode, if_neg ht]
      cases hsrc : extractSrc tag attrs with
      | none =>
        simp only [hsrc]
        exact trList_sets cfg s ha hb cs st
      | some s' =>
        simp only [hsrc]
        by_cases hel :
          shouldAddBlurryPlaceholder (Node.mk tag attrs cs) (some s') tag = true
        · simp only [hel, if_true]
          have happ :
              alookup (st.sets ++ (runTask cfg s').2) s = alookup st.sets s := by
            rw [alookup_append]
            cases hl : alookup st.sets s with
            | some v => rfl
            | none => exact runTask_no_s cfg s ha hb s'
          by_cases hstop : cfg.maxP ≤ st.count + 1
          · have hd : decide (cfg.maxP ≤ st.count + 1) = true := decide_eq_true hstop
            simp only [hd, if_true]
            cases htask : (runTask cfg s').1 with
            | none => simp only [htask]; exact happ
            | some r => simp only [htask]; exact happ
          · have hd : decide (cfg.maxP ≤ st.count + 1) = false :=
              decide_eq_false hstop
            simp only [hd, Bool.false_eq_true, if_false]
            have hrec := trList_sets cfg s ha hb cs
              { count := st.count + 1, attached := st.attached,
                sets := st.sets ++ (runTask cfg s').2, stopped := false }
            simp only at hrec
            cases htask : (runTask cfg s').1 with
            | none =>
              simp only [htask]
              rw [hrec]
              exact happ
            | some r =>
              simp only [htask]
              rw [hrec]
              exact happ
        · simp only [hel, Bool.false_eq_true, if_false]
          exact trList_sets cfg s ha hb cs st

theorem trList_sets (cfg : EngineCfg) (s : String)
    (ha : alookup cfg.cache0 s = none) (hb : cfg.codec s = none)
    (ns : NodeList) (st : Step) :
    alookup (trList cfg ns st).2.sets s = alookup st.sets s := by
  match ns with
  | .nil => rw [trList]
  | .cons n rest =>
    by_cases hstop : (trNode cfg n st).2.stopped = true
    · simp only [trList, hstop, eq_self_iff_true, if_true]
      exact trNode_sets cfg s ha hb n st
    · have hsf : (trNode cfg n st).2.stopped = false := by
        revert hstop
        cases (trNode cfg n st).2.stopped <;> simp
      simp only [trList, hsf, Bool.false_eq_true, if_false]
      rw [trList_sets cfg s ha hb rest (trNode cfg n st).2]
      exact trNode_sets cfg s ha hb n st
end

mutual
theorem trNode_attach (cfg : EngineCfg) (n : Node) (st : Step)
    (h1 : st.stopped = false) (h2 : st.count < cfg.maxP)
    (hsucc : ∀ s, ((runTask cfg s).1).isSome = true) :
    (trNode cfg n st).2.attached + st.count = (trNode cfg n st).2.count + st.attached := by
  match n with
  | Node.mk tag attrs cs =>
    by_cases ht : tag = "template"
    · rw [trNode, if_pos ht]
      show st.attached + st.count = st.count + st.attached
      omega
    · rw [trNode, if_neg ht]
      cases hsrc : extractSrc tag attrs with
      | none =>
        simp only [hsrc]
        have := trList_attach cfg cs st h1 h2 hsucc
        show (trList cfg cs st).2.attached + st.count =
          (trList cfg cs st).2.count + st.attached
        omega
      | some s =>
        simp only [hsrc]
        by_cases hel :
          shouldAddBlurryPlaceholder (Node.mk tag attrs cs) (some s) tag = true
        · simp only [hel, if_true]
          obtain ⟨r, hr⟩ := Option.isSome_iff_exists.mp (hsucc s)
          by_cases hstop : cfg.maxP ≤ st.count + 1
          · have hd : decide (cfg.maxP ≤ st.count + 1) = true := decide_eq_true hstop
            simp only [hd, if_true, hr]
            show (st.attached + 1) + st.count = (st.count + 1) + st.attached
            omega
          · have hd : decide (cfg.maxP ≤ st.count + 1) = false :=
              decide_eq_false hstop
            simp only [hd, Bool.false_eq_true, if_false, hr]
            have hih := trList_attach cfg cs
              { count := st.count + 1, attached := st.attached,
                sets := st.sets ++ (runTask cfg s).2, stopped := false }
              rfl (by simp only; omega) hsucc
            simp only at hih
            show (trList cfg cs _).2.attached + 1 + st.count =
              (trList cfg cs _).2.count + st.attached
            omega
        · simp only [hel, Bool.false_eq_true, if_false]
          have := trList_attach cfg cs st h1 h2 hsucc
          show (trList cfg cs st).2.attached + st.count =
            (trList cfg cs st).2.count + st.attached
          omega

theorem trList_attach (cfg : EngineCfg) (ns : NodeList) (st : Step)
    (h1 : st.stopped = false) (h2 : st.count < cfg.maxP)
    (hsucc : ∀ s, ((runTask cfg s).1).isSome = true) :
    (trList cfg ns st).2.attached + st.count = (trList cfg ns st).2.count + st.attached := by
  match ns with
  | .nil =>
    rw [trList]
    show st.attached + st.count = st.count + st.attached
    omega
  | .cons n rest =>
    have hn := trNode_attach cfg n st h1 h2 hsucc
    by_cases hstop : (trNode cfg n st).2.stopped = true
    · simp only [trList, hstop, eq_self_iff_true, if_true]
      exact hn
    · have hsf : (trNode cfg n st).2.stopped = false := by
        revert hstop
        cases (trNode cfg n st).2.stopped <;> simp
      have hlt : (trNode cfg n st).2.count < cfg.maxP := by
        obtain ⟨hnc, hns⟩ := trNode_count cfg n st h1 h2
        have hn2 : ¬ cfg.maxP ≤ st.count + eligNode n := fun hcon => by
          rw [hns.mpr hcon] at hsf
          cases hsf
        rw [hnc]
        omega
      have hr := trList_attach cfg rest (trNode cfg n st).2 hsf hlt hsucc
      simp only [trList, hsf, Bool.false_eq_true, if_false]
      show (trList cfg rest (trNode cfg n st).2).2.attached + st.count =
        (trList cfg rest (trNode cfg n st).2).2.count + st.attached
      omega
end

theorem alookup_setAttr_self (l : List (String × String)) (k v : String) :
    alookup (setAttrList l k v) k = some v := by
  induction l with
  | nil => simp [setAttrList, alookup]
  | cons p t ih =>
    obtain ⟨a, b⟩ := p
    by_cases h : a = k
    · simp [setAttrList, h, alookup]
    · simp [setAttrList, h, alookup, ih]

theorem alookup_setAttr_ne (l : List (String × String)) (k v k' : String)
    (h : k' ≠ k) :
    alookup (setAttrList l k v) k' = alookup l k' := by
  induction l with
  | nil =>
    simp only [setAttrList, alookup]
    rw [if_neg (fun he => h he.symm)]
  | cons p t ih =>
    obtain ⟨a, b⟩ := p
    by_cases ha : a = k
    · subst ha
      simp only [setAttrList, if_pos rfl, alookup]
      rw [if_neg (fun he => h he.symm), if_neg (fun he => h he.symm)]
    · simp only [setAttrList, if_neg ha, alookup]
      by_cases hak : a = k'
      · rw [if_pos hak, if_pos hak]
      · rw [if_neg hak, if_neg hak, ih]

theorem setAttr_absent (l : List (String × String)) (k v : String)
    (h : alookup l k = none) :
    setAttrList l k v = l ++ [(k, v)] := by
  induction l with
  | nil => simp [setAttrList]
  | cons p t ih =>
    obtain ⟨a, b⟩ := p
    by_cases ha : a = k
    · simp [alookup, ha] at h
    · rw [alookup, if_neg ha] at h
      simp [setAttrList, ha, ih h]

/-- C10: the attachment performed when a derivation task succeeds modifies
the host element only by setting its `noloading` attribute to the empty
string and appending exactly one child at the end of its child list; the
tag, every other attribute and every pre-existing child are preserved (when
`noloading` was absent, which eligibility guarantees, the attribute list is
exactly extended); and every subtree containing no eligible candidate is
returned by the walk completely unchanged. -/
theorem attachment_frame :
    (∀ (tag : String) (attrs : List (String × String)) (cs : NodeList)
       (img : Node),
      (attachPlaceholder tag attrs cs img).tagName = tag ∧
      (attachPlaceholder tag attrs cs img).children =
        cs.append (.cons img .nil) ∧
      alookup (setAttrList attrs "noloading" "") "noloading" = some "" ∧
      (∀ k, k ≠ "noloading" →
        alookup (setAttrList attrs "noloading" "") k = alookup attrs k) ∧
      (alookup attrs "noloading" = none →
        setAttrList attrs "noloading" "" = attrs ++ [("noloading", "")])) ∧
    (∀ (cfg : EngineCfg) (n : Node) (st : Step),
      eligNode n = 0 → trNode cfg n st = (n, st)) := by
  refine ⟨fun tag attrs cs img => ⟨rfl, rfl, ?_, ?_, ?_⟩, trNode_noElig⟩
  · exact alookup_setAttr_self attrs "noloading" ""
  · exact fun k hk => alookup_setAttr_ne attrs "noloading" "" k hk
  · exact setAttr_absent attrs "noloading" ""

theorem attachment_frame_witness :
    ("src" ≠ "noloading" ∧
      alookup (setAttrList [("src", "a.jpg")] "noloading" "") "src" =
        alookup [("src", "a.jpg")] "src") ∧
    (eligNode (Node.mk "div" [] .nil) = 0 ∧
      trNode { maxP := 100, cache0 := [], codec := demoCodec }
        (Node.mk "div" [] .nil) initialStep =
        (Node.mk "div" [] .nil, initialStep)) :=
  ⟨⟨by decide,
    (attachment_frame.1 "div" [("src", "a.jpg")] .nil
      (Node.mk "div" [] .nil)).2.2.2.1 "src" (by decide)⟩,
   ⟨by decide,
    attachment_frame.2 { maxP := 100, cache0 := [], codec := demoCodec }
      (Node.mk "div" [] .nil) initialStep (by decide)⟩⟩

/-- C3: once the initiation counter reaches the configured maximum the walk
stops initiating tasks: whenever a document holds at least `maxP ≥ 1`
eligible candidates, exactly `maxP` tasks are initiated, and (when every
initiated task settles successfully) exactly `maxP` placeholders are
attached; concretely, 150 eligible candidates with `maxBlurredPlaceholders
= 100` yield 100 initiated tasks, 100 attached placeholders, and the
remaining 50 candidate nodes are returned untouched. -/
theorem maxPlaceholders_cutoff :
    (∀ (cfg : EngineCfg) (body : Node),
      1 ≤ cfg.maxP → cfg.maxP ≤ eligNode body →
      (trNode cfg body initialStep).2.count = cfg.maxP) ∧
    (∀ (cfg : EngineCfg) (body : Node),
      1 ≤ cfg.maxP → cfg.maxP ≤ eligNode body →
      (∀ s, ((runTask cfg s).1).isSome = true) →
      (trNode cfg body initialStep).2.attached = cfg.maxP) ∧
    (transform true 100 [] demoCodec (demoBody 150)).2.count = 100 ∧
    (transform true 100 [] demoCodec (demoBody 150)).2.attached = 100 ∧
    ((transform true 100 [] demoCodec (demoBody 150)).1.children.drop 100 =
      NodeList.replicate 50 demoCandidate) := by
  have hcount : ∀ (cfg : EngineCfg) (body : Node),
      1 ≤ cfg.maxP → cfg.maxP ≤ eligNode body →
      (trNode cfg body initialStep).2.count = cfg.maxP := by
    intro cfg body hmax helig
    obtain ⟨hc, _⟩ := trNode_count cfg body initialStep rfl
      (by show 0 < cfg.maxP; omega)
    rw [hc]
    show min cfg.maxP (0 + eligNode body) = cfg.maxP
    omega
  refine ⟨hcount, fun cfg body hmax helig hsucc => ?_, by rfl, by rfl, by rfl⟩
  have ha := trNode_attach cfg body initialStep rfl
    (by show 0 < cfg.maxP; omega) hsucc
  have hc := hcount cfg body hmax helig
  show (trNode cfg body initialStep).2.attached = cfg.maxP
  have h0c : initialStep.count = 0 := rfl
  have h0a : initialStep.attached = 0 := rfl
  omega

theorem maxPlaceholders_cutoff_witness :
    (1 ≤ ({ maxP := 2, cache0 := [], codec := demoCodec } : EngineCfg).maxP ∧
      ({ maxP := 2, cache0 := [], codec := demoCodec } : EngineCfg).maxP ≤
        eligNode (demoBody 3)) ∧
    (trNode { maxP := 2, cache0 := [], codec := demoCodec } (demoBody 3)
      initialStep).2.count = 2 :=
  ⟨⟨by decide, by decide⟩,
   maxPlaceholders_cutoff.1 { maxP := 2, cache0 := [], codec := demoCodec }
     (demoBody 3) (by decide) (by decide)⟩

/-- C2: a decode failure of one candidate's derivation task is caught
inside that task (`runTask` settles with no result and no cache write); the
walk stores nothing in the cache under that reference; the failing
candidate's node gets no placeholder child appended (its child count is
unchanged; only `noloading` is set by the settled handler); and the run
still completes with every other initiated task attaching normally, as the
concrete two-candidate run shows. -/
theorem decodeFailure_isolated :
    (∀ (cfg : EngineCfg) (s : String),
      alookup cfg.cache0 s = none → cfg.codec s = none →
      runTask cfg s = (none, [])) ∧
    (∀ (cfg : EngineCfg) (s : String),
      alookup cfg.cache0 s = none → cfg.codec s = none →
      ∀ (n : Node) (st : Step),
        alookup (trNode cfg n st).2.sets s = alookup st.sets s) ∧
    (∀ (cfg : EngineCfg) (tag : String) (attrs : List (String × String))
       (cs : NodeList) (st : Step) (s : String),
      extractSrc tag attrs = some s →
      shouldAddBlurryPlaceholder (Node.mk tag attrs cs) (some s) tag = true →
      alookup cfg.cache0 s = none → cfg.codec s = none →
      ∃ cs', (trNode cfg (Node.mk tag attrs cs) st).1 =
          Node.mk tag (setAttrList attrs "noloading" "") cs' ∧
        cs'.length = cs.length) ∧
    (transform true 0 [] demoCodecFailBad demoBodyFailOk).2 =
      { count := 2, attached := 1, sets := [("good.jpg", demoResult)],
        stopped := false } ∧
    (transform true 0 [] demoCodecFailBad demoBodyFailOk).1.children.get? 0 =
      some (Node.mk "amp-img"
        [("src", "bad.jpg"), ("layout", "responsive"), ("noloading", "")] .nil) ∧
    (transform true 0 [] demoCodecFailBad demoBodyFailOk).1.children.get? 1 =
      some (attachPlaceholder "amp-img"
        [("src", "good.jpg"), ("layout", "responsive")] .nil
        (mkPlaceholderImg demoResult)) := by
  refine ⟨fun cfg s ha hb => by simp [runTask, ha, hb],
    fun cfg s ha hb n st => trNode_sets cfg s ha hb n st,
    ?_, by rfl, by rfl, by rfl⟩
  intro cfg tag attrs cs st s hsrc hel ha hb
  have ht : ¬ tag = "template" := by
    intro hT
    subst hT
    simp [extractSrc] at hsrc
  rw [trNode, if_neg ht]
  simp only [hsrc, hel, if_true]
  have htask : runTask cfg s = (none, []) := by simp [runTask, ha, hb]
  simp only [htask]
  by_cases hstop : cfg.maxP ≤ st.count + 1
  · have hd : decide (cfg.maxP ≤ st.count + 1) = true := decide_eq_true hstop
    simp only [hd, if_true]
    exact ⟨cs, rfl, rfl⟩
  · have hd : decide (cfg.maxP ≤ st.count + 1) = false := decide_eq_false hstop
    simp only [hd, Bool.false_eq_true, if_false]
    exact ⟨_, rfl, trList_length cfg cs _⟩

theorem decodeFailure_isolated_witness :
    (alookup
        ({ maxP := 100, cache0 := [], codec := demoCodecFailBad } :
          EngineCfg).cache0 "bad.jpg" = none ∧
      ({ maxP := 100, cache0 := [], codec := demoCodecFailBad } :
          EngineCfg).codec "bad.jpg" = none) ∧
    runTask { maxP := 100, cache0 := [], codec := demoCodecFailBad }
      "bad.jpg" = (none, []) :=
  ⟨⟨rfl, by decide⟩,
   decodeFailure_isolated.1
     { maxP := 100, cache0 := [], codec := demoCodecFailBad } "bad.jpg" rfl
     (by decide)⟩

theorem listIsPre_head {a b : Char} {as bs l : List Char}
    (ha : listIsPre (a :: as) l = true) (hb : listIsPre (b :: bs) l = true) :
    a = b ∧ listIsPre as l.tail = true ∧ listIsPre bs l.tail = true := by
  cases l with
  | nil => simp [listIsPre] at ha
  | cons c t =>
    simp only [listIsPre, Bool.and_eq_true, decide_eq_true_eq] at ha hb
    exact ⟨ha.1.trans hb.1.symm, by simp [ha.2], by simp [hb.2]⟩

theorem png_not_jpeg (p : String) (hpng : strEndsWith p ".png" = true) :
    strEndsWith p ".jpg" = false ∧ strEndsWith p "jpeg" = false := by
  have hp : (".png" : String).data.reverse = ['g', 'n', 'p', '.'] := by decide
  have hj : (".jpg" : String).data.reverse = ['g', 'p', 'j', '.'] := by decide
  have he : ("jpeg" : String).data.reverse = ['g', 'e', 'p', 'j'] := by decide
  rw [strEndsWith, hp] at hpng
  constructor
  · rw [strEndsWith, hj]
    by_contra hc
    have hc' : listIsPre ['g', 'p', 'j', '.'] p.data.reverse = true := by
      revert hc
      cases listIsPre ['g', 'p', 'j', '.'] p.data.reverse <;> simp
    obtain ⟨_, h1, h2⟩ := listIsPre_head hpng hc'
    obtain ⟨hnp, _, _⟩ := listIsPre_head h1 h2
    exact absurd hnp (by decide)
  · rw [strEndsWith, he]
    by_contra hc
    have hc' : listIsPre ['g', 'e', 'p', 'j'] p.data.reverse = true := by
      revert hc
      cases listIsPre ['g', 'e', 'p', 'j'] p.data.reverse <;> simp
    obtain ⟨_, h1, h2⟩ := listIsPre_head hpng hc'
    obtain ⟨hne, _, _⟩ := listIsPre_head h1 h2
    exact absurd hne (by decide)

/-- C4: the eligibility classifier accepts exactly when: a non-empty
reference was extracted, no child of the node carries the `placeholder`
marker, the reference's path component (query and fragment stripped, per
the neutral-base parse) ends in `.jpg` or `jpeg`, the node carries no
`noloading` attribute, and the tag is `amp-video` (video with poster) or
`amp-img` with layout `intrinsic`, `responsive` or `fill`; consequently an
`amp-img` with `layout=fixed` is never eligible and a reference whose path
ends in `.png` is never eligible. -/
theorem shouldAddBlurryPlaceholder_spec :
    (∀ (n : Node) (src : Option String) (tag : String),
      shouldAddBlurryPlaceholder n src tag = true ↔
        ((∃ s, src = some s ∧ s ≠ "" ∧
           (strEndsWith (urlPathname s) ".jpg" = true ∨
            strEndsWith (urlPathname s) "jpeg" = true)) ∧
         hasPlaceholder n.children = false ∧
         n.getAttr "noloading" = none ∧
         (tag = "amp-video" ∨
          (tag = "amp-img" ∧
           (n.getAttr "layout" = some "intrinsic" ∨
            n.getAttr "layout" = some "responsive" ∨
            n.getAttr "layout" = some "fill"))))) ∧
    (∀ (n : Node) (s : String),
      n.getAttr "layout" = some "fixed" →
      shouldAddBlurryPlaceholder n (some s) "amp-img" = false) ∧
    (∀ (n : Node) (tag : String) (s : String),
      strEndsWith (urlPathname s) ".png" = true →
      shouldAddBlurryPlaceholder n (some s) tag = false) := by
  have hmain : ∀ (n : Node) (src : Option String) (tag : String),
      shouldAddBlurryPlaceholder n src tag = true ↔
        ((∃ s, src = some s ∧ s ≠ "" ∧
           (strEndsWith (urlPathname s) ".jpg" = true ∨
            strEndsWith (urlPathname s) "jpeg" = true)) ∧
         hasPlaceholder n.children = false ∧
         n.getAttr "noloading" = none ∧
         (tag = "amp-video" ∨
          (tag = "amp-img" ∧
           (n.getAttr "layout" = some "intrinsic" ∨
            n.getAttr "layout" = some "responsive" ∨
            n.getAttr "layout" = some "fill")))) := by
    intro n src tag
    cases src with
    | none => simp [shouldAddBlurryPlaceholder]
    | some s =>
      simp only [shouldAddBlurryPlaceholder]
      split_ifs with h1 h2 h3 h4
      · simp only [Bool.false_eq_true, false_iff]
        rintro ⟨⟨s', hs', hne, _⟩, _⟩
        injection hs' with h
        exact hne (by rw [← h, h1])
      · simp only [Bool.false_eq_true, false_iff]
        rintro ⟨_, hpl, _, _⟩
        simp [h2] at hpl
      · simp only [Bool.false_eq_true, false_iff]
        rintro ⟨⟨s', hs', _, hjpg⟩, _⟩
        injection hs' with h
        rw [← h] at hjpg
        have h3' : (strEndsWith (urlPathname s) ".jpg" ||
            strEndsWith (urlPathname s) "jpeg") = false := by
          revert h3
          cases hx : (strEndsWith (urlPathname s) ".jpg" ||
            strEndsWith (urlPathname s) "jpeg") <;> simp
        simp only [Bool.or_eq_false_iff] at h3'
        rcases hjpg with hj | hj
        · rw [h3'.1] at hj
          simp at hj
        · rw [h3'.2] at hj
          simp at hj
      · simp only [Bool.false_eq_true, false_iff]
        rintro ⟨_, _, hnl, _⟩
        rw [Node.getAttr] at hnl
        rw [Node.getAttr, hnl] at h4
        simp at h4
      · constructor
        · intro hfinal
          simp only [Bool.or_eq_true, Bool.and_eq_true, beq_iff_eq] at hfinal
          refine ⟨⟨s, rfl, h1, ?_⟩, ?_, ?_, ?_⟩
          · have hab : (strEndsWith (urlPathname s) ".jpg" ||
                strEndsWith (urlPathname s) "jpeg") = true := by
              revert h3
              cases hx : (strEndsWith (urlPathname s) ".jpg" ||
                strEndsWith (urlPathname s) "jpeg") <;> simp
            simpa only [Bool.or_eq_true] using hab
          · revert h2
            cases hasPlaceholder n.children <;> simp
          · revert h4
            cases hga : n.getAttr "noloading" <;> simp [Option.isSome]
          · tauto
        · rintro ⟨_, _, _, hlast⟩
          simp only [Bool.or_eq_true, Bool.and_eq_true, beq_iff_eq]
          tauto
  refine ⟨hmain, ?_, ?_⟩
  · intro n s hfix
    cases hval : shouldAddBlurryPlaceholder n (some s) "amp-img" with
    | false => rfl
    | true =>
      obtain ⟨_, _, _, hlast⟩ := (hmain n (some s) "amp-img").mp hval
      rcases hlast with hv | ⟨_, hl⟩
      · exact absurd hv (by decide)
      · rcases hl with hl | hl | hl <;> rw [hfix] at hl <;>
          exact absurd (Option.some.inj hl) (by decide)
  · intro n tag s hpng
    obtain ⟨hj1, hj2⟩ := png_not_jpeg (urlPathname s) hpng
    cases hval : shouldAddBlurryPlaceholder n (some s) tag with
    | false => rfl
    | true =>
      obtain ⟨⟨s', hs', _, hjpg⟩, _⟩ := (hmain n (some s) tag).mp hval
      injection hs' with h
      rw [← h] at hjpg
      rcases hjpg with hj | hj
      · rw [hj1] at hj
        simp at hj
      · rw [hj2] at hj
        simp at hj

theorem shouldAddBlurryPlaceholder_spec_witness :
    ((Node.mk "amp-img" [("src", "a.jpg"), ("layout", "fixed")] .nil).getAttr
        "layout" = some "fixed" ∧
      shouldAddBlurryPlaceholder
        (Node.mk "amp-img" [("src", "a.jpg"), ("layout", "fixed")] .nil)
        (some "a.jpg") "amp-img" = false) ∧
    (strEndsWith (urlPathname "b.png") ".png" = true ∧
      shouldAddBlurryPlaceholder demoCandidate (some "b.png") "amp-img" =
        false) :=
  ⟨⟨by decide,
    shouldAddBlurryPlaceholder_spec.2.1
      (Node.mk "amp-img" [("src", "a.jpg"), ("layout", "fixed")] .nil) "a.jpg"
      (by decide)⟩,
   ⟨by decide,
    shouldAddBlurryPlaceholder_spec.2.2 demoCandidate "amp-img" "b.png"
      (by decide)⟩⟩

theorem sqrt30_bounds :
    (5.4 : ℝ) ≤ Real.sqrt 30 ∧ Real.sqrt 30 < 5.5 := by
  have h30 : Real.sqrt 30 ^ 2 = 30 := Real.sq_sqrt (by norm_num)
  have hnn : 0 ≤ Real.sqrt 30 := Real.sqrt_nonneg 30
  constructor
  · nlinarith
  · nlinarith

/-- C5 (amended): over exact real arithmetic the planner returns the
nearest-integer roundings of the spec's formulas — the width rounds
`P / sqrt(P/r) = sqrt(P·w/h)` and the height rounds `sqrt(P/r) =
sqrt(P·h/w)` — and on the spec's example `(1200, 600)` it returns `(11, 5)`
with width `= 2·height + 1` and pixel product `55` (within `5` of the
budget `60`); the claim's universal "product within a small tolerance of
60" holds only away from extreme aspect ratios (see the counterexample). -/
theorem bitmapDimensions_formula :
    (∀ w h : Nat, 0 < w → 0 < h →
      (getBitmapDimensions w h).1 =
        round (Real.sqrt ((PIXEL_TARGET : ℝ) * w / h)) ∧
      (getBitmapDimensions w h).2 =
        round (Real.sqrt ((PIXEL_TARGET : ℝ) * h / w))) ∧
    getBitmapDimensions 1200 600 = (11, 5) ∧
    (getBitmapDimensions 1200 600).1 =
      2 * (getBitmapDimensions 1200 600).2 + 1 ∧
    (getBitmapDimensions 1200 600).1 * (getBitmapDimensions 1200 600).2 =
      55 := by
  have hP : ((PIXEL_TARGET : ℕ) : ℝ) = 60 := by norm_num [PIXEL_TARGET]
  have hmain : ∀ w h : Nat, 0 < w → 0 < h →
      (getBitmapDimensions w h).1 =
        round (Real.sqrt ((PIXEL_TARGET : ℝ) * w / h)) ∧
      (getBitmapDimensions w h).2 =
        round (Real.sqrt ((PIXEL_TARGET : ℝ) * h / w)) := by
    intro w h hw hh
    have hw' : (0:ℝ) < w := by exact_mod_cast hw
    have hh' : (0:ℝ) < h := by exact_mod_cast hh
    have hrpos : (0:ℝ) < (w:ℝ) / (h:ℝ) := div_pos hw' hh'
    simp only [getBitmapDimensions, hP]
    constructor
    · congr 1
      have hx : (0:ℝ) < 60 / ((w:ℝ)/(h:ℝ)) := by positivity
      have hs : 0 < Real.sqrt (60 / ((w:ℝ)/(h:ℝ))) := Real.sqrt_pos.mpr hx
      apply mul_right_cancel₀ (ne_of_gt hs)
      rw [div_mul_cancel₀ _ (ne_of_gt hs)]
      rw [← Real.sqrt_mul (by positivity)]
      have hprod : (60:ℝ) * w / h * (60 / ((w:ℝ)/(h:ℝ))) = 3600 := by
        field_simp
        ring
      rw [hprod, show (3600:ℝ) = 60 ^ 2 by norm_num,
        Real.sqrt_sq (by norm_num)]
    · congr 2
      field_simp
  refine ⟨hmain, ?_, ?_, ?_⟩ <;>
  · have h30 : Real.sqrt 30 ^ 2 = 30 := Real.sq_sqrt (by norm_num)
    have hnn : 0 ≤ Real.sqrt 30 := Real.sqrt_nonneg 30
    obtain ⟨hlo, hhi⟩ := sqrt30_bounds
    have hs0 : (0:ℝ) < Real.sqrt 30 := by nlinarith
    have hratio : ((1200:ℕ):ℝ) / ((600:ℕ):ℝ) = 2 := by norm_num
    have hdef : getBitmapDimensions 1200 600 =
        (round ((60:ℝ) / Real.sqrt 30), round (Real.sqrt 30)) := by
      simp only [getBitmapDimensions, hP, hratio]
      norm_num
    have h5 : round (Real.sqrt 30) = 5 := by
      rw [round_eq]
      apply Int.floor_eq_iff.mpr
      constructor
      · push_cast
        nlinarith
      · push_cast
        nlinarith
    have h11 : round ((60:ℝ) / Real.sqrt 30) = 11 := by
      have hdlo : (10.5:ℝ) ≤ 60 / Real.sqrt 30 := by
        rw [le_div_iff₀ hs0]
        nlinarith
      have hdhi : (60:ℝ) / Real.sqrt 30 < 11.5 := by
        rw [div_lt_iff₀ hs0]
        nlinarith
      rw [round_eq]
      apply Int.floor_eq_iff.mpr
      constructor
      · push_cast
        nlinarith
      · push_cast
        nlinarith
    rw [hdef]
    simp [h5, h11]

/-- C5 (counterexample): for the extreme aspect ratio `(1000000, 1)` the
planner's rounded height is `0`, so the pixel product `w'·h'` is `0` —
off the fixed budget `60` by the entire budget — refuting "for all
positive dimensions the product lies within a small integer tolerance of
60". -/
theorem bitmapDimensions_extremeRatio :
    (getBitmapDimensions 1000000 1).2 = 0 ∧
    (getBitmapDimensions 1000000 1).1 * (getBitmapDimensions 1000000 1).2 =
      0 := by
  have hP : ((PIXEL_TARGET : ℕ) : ℝ) = 60 := by norm_num [PIXEL_TARGET]
  have hx : ((60:ℝ) / (((1000000:ℕ):ℝ) / ((1:ℕ):ℝ))) = 0.00006 := by
    norm_num
  have hsq : Real.sqrt 0.00006 ^ 2 = 0.00006 := Real.sq_sqrt (by norm_num)
  have hnn : 0 ≤ Real.sqrt 0.00006 := Real.sqrt_nonneg _
  have hlt : Real.sqrt 0.00006 < 0.5 := by nlinarith
  have h0 : round (Real.sqrt 0.00006) = 0 := by
    rw [round_eq]
    apply Int.floor_eq_iff.mpr
    constructor
    · push_cast
      nlinarith
    · push_cast
      nlinarith
  have h2 : (getBitmapDimensions 1000000 1).2 = 0 := by
    simp only [getBitmapDimensions, hP]
    rw [show ((60:ℝ) / (((1000000:ℕ):ℝ) / ((1:ℕ):ℝ))) = 0.00006 from hx]
    exact h0
  exact ⟨h2, by rw [h2, mul_zero]⟩

theorem bitmapDimensions_formula_witness :
    0 < 1200 ∧ 0 < 600 ∧
    ((getBitmapDimensions 1200 600).1 =
        round (Real.sqrt ((PIXEL_TARGET : ℝ) * ((1200:ℕ):ℝ) / ((600:ℕ):ℝ))) ∧
      (getBitmapDimensions 1200 600).2 =
        round (Real.sqrt ((PIXEL_TARGET : ℝ) * ((600:ℕ):ℝ) / ((1200:ℕ):ℝ)))) :=
  ⟨by norm_num, by norm_num,
   bitmapDimensions_formula.1 1200 600 (by norm_num) (by norm_num)⟩
